import Mathlib

/-!
Shallow embedding of the depi dependency manager's core
(src/utils.rs, src/dep.rs, src/cargo.rs) and proofs about it.

Conventions used throughout:
* Rust functions that can panic are embedded with result type `Option _`,
  where `none` models a panic (e.g. `.unwrap()` on `None`).
* Rust `Result<T, anyhow::Error>` is embedded as `Except String T`, the
  string being the formatted error message.
* Rust `HashMap` values are embedded as association lists; the embedding
  only relies on key lookup, never on iteration order, except where a
  comment notes that the program's observable output is order-independent.
* `char::is_alphanumeric` / `is_ascii_digit` / whitespace trimming are
  embedded with Lean's ASCII character classes; all inputs relevant to
  the claims are ASCII.
-/

/-- Version triple from utils.rs: `pub struct OrdVersion(pub u32, pub u32, pub u32)`.
Components are `Nat` here; `OrdVersion.parse` enforces the `u32` bound. -/
structure OrdVersion where
  major : Nat
  minor : Nat
  patch : Nat
deriving DecidableEq

/-- Decidable equality for embedded `Result` values, used only to evaluate
the development on concrete inputs. -/
instance exceptDecEq {ε α : Type} [DecidableEq ε] [DecidableEq α] :
    DecidableEq (Except ε α) := fun a b =>
  match a, b with
  | Except.ok x, Except.ok y =>
    if h : x = y then isTrue (by rw [h]) else isFalse (by intro hc; cases hc; exact h rfl)
  | Except.error x, Except.error y =>
    if h : x = y then isTrue (by rw [h]) else isFalse (by intro hc; cases hc; exact h rfl)
  | Except.ok _, Except.error _ => isFalse (by intro hc; cases hc)
  | Except.error _, Except.ok _ => isFalse (by intro hc; cases hc)

/-- Strict comparison from Rust's derived `Ord` on the tuple struct:
lexicographic on (major, minor, patch). -/
def OrdVersion.ltb (a b : OrdVersion) : Bool :=
  decide (a.major < b.major ∨ (a.major = b.major ∧
    (a.minor < b.minor ∨ (a.minor = b.minor ∧ a.patch < b.patch))))

/-- Rendering from utils.rs: `format!("{}.{}.{}", self.0, self.1, self.2)`. -/
def OrdVersion.render (v : OrdVersion) : String :=
  toString v.major ++ "." ++ toString v.minor ++ "." ++ toString v.patch

/-- Model of Rust `str::split_once('-')` restricted to its list of chars:
first occurrence of the separator splits the list. -/
def breakDash : List Char → Option (List Char × List Char)
  | [] => none
  | c :: cs =>
    if c = '-' then some ([], cs)
    else (breakDash cs).map (fun p => (c :: p.1, p.2))

/-- Model of `s.split_once("-")` from `OrdVersion::parse`. -/
def splitOnceDash (s : String) : Option (String × String) :=
  (breakDash s.toList).map (fun p => (String.mk p.1, String.mk p.2))

/-- The part of the input kept after the suffix strip in `OrdVersion::parse`:
the portion before the first `-` when one exists, the whole string otherwise. -/
def preDash (s : String) : String :=
  match splitOnceDash s with
  | some p => p.1
  | none => s

/-- Model of Rust `str::split(sep)` for a single-character separator, over the
character list: empty segments are kept, and splitting the empty string
yields one empty segment, as in Rust. -/
def splitCharList (sep : Char) : List Char → List (List Char)
  | [] => [[]]
  | c :: cs =>
    let r := splitCharList sep cs
    if c = sep then [] :: r
    else
      match r with
      | h :: t => (c :: h) :: t
      | [] => [[c]]

/-- String-level wrapper for `splitCharList`. -/
def splitOnChar (sep : Char) (s : String) : List String :=
  (splitCharList sep s.toList).map String.mk

/-- Model of Rust `str::parse::<u32>()`: at least one character, digits only,
value bounded by `2^32`.  (Rust also accepts a leading `+`, which no input in
this development uses.) -/
def parseU32 (s : String) : Option Nat :=
  match s.toList with
  | [] => none
  | cs =>
    if cs.all Char.isDigit then
      let n := cs.foldl (fun acc c => acc * 10 + (c.toNat - 48)) 0
      if n < 4294967296 then some n else none
    else none

/-- Numeric-component dispatch from `OrdVersion::parse`: 1, 2 or 3
dot-separated components, missing trailing components default to 0;
any other count is the error "invalid parts {len}"; a component that is
not a `u32` numeral is the error "invalid digit". -/
def parseParts (parts : List String) : Except String OrdVersion :=
  match parts with
  | [a] =>
    match parseU32 a with
    | some x => Except.ok ⟨x, 0, 0⟩
    | none => Except.error "invalid digit"
  | [a, b] =>
    match parseU32 a, parseU32 b with
    | some x, some y => Except.ok ⟨x, y, 0⟩
    | _, _ => Except.error "invalid digit"
  | [a, b, c] =>
    match parseU32 a, parseU32 b, parseU32 c with
    | some x, some y, some z => Except.ok ⟨x, y, z⟩
    | _, _, _ => Except.error "invalid digit"
  | l => Except.error ("invalid parts " ++ toString l.length)

/-- Embedding of `OrdVersion::parse` (utils.rs, lines 335-366).
Steps, exactly as in the source: (1) drop the portion after the first `-`;
(2) `s.chars().nth(0).unwrap()` — `none` here models the panic of that
`unwrap` when the remaining string is empty; (3) if the first character is
not an ASCII digit, `trim_start_matches(start)` drops the leading run of
occurrences of that character; (4) split on `.` and read 1-3 components. -/
def OrdVersion.parse (s : String) : Option (Except String OrdVersion) :=
  match (preDash s).toList.head? with
  | none => none
  | some start =>
    if start.isDigit then some (parseParts (splitOnChar '.' (preDash s)))
    else some (parseParts (splitOnChar '.'
      (String.mk ((preDash s).toList.dropWhile (fun c => c = start)))))

/-- One step of Rust `Iterator::max` on `OrdVersion`: keep the later
element on ties or larger; with `OrdVersion`'s structural equality,
ties do not affect the rendered result. -/
def maxStep (acc : Option OrdVersion) (v : OrdVersion) : Option OrdVersion :=
  match acc with
  | none => some v
  | some m => if OrdVersion.ltb m v then some v else some m

/-- Model of `.max()` over a list of parsed versions. -/
def listMaxV (l : List OrdVersion) : Option OrdVersion :=
  l.foldl maxStep none

/-- Registry snapshot from dep.rs: `CratesDep { name, versions: HashMap<String, Vec<String>> }`,
the map sending a version string to its feature names.  Embedded as an
association list. -/
structure CratesDep where
  name : String
  versions : List (String × List String)
deriving DecidableEq

/-- The version strings of a snapshot (the `HashMap` keys). -/
def CratesDep.versionKeys (d : CratesDep) : List String :=
  d.versions.map Prod.fst

/-- The parseable versions of a snapshot: `filter_map(|(v, _)| OrdVersion::parse(v).ok())`. -/
def CratesDep.parsedVersions (d : CratesDep) : List OrdVersion :=
  d.versionKeys.filterMap (fun v =>
    match OrdVersion.parse v with
    | some (Except.ok o) => some o
    | _ => none)

/-- Embedding of `CratesDep::get_last_version` (dep.rs, lines 177-184):
`self.versions.iter().filter_map(|(v, _)| OrdVersion::parse(v).ok()).max().unwrap().to_string()`.
`none` models a panic: either a panic inside `OrdVersion::parse` on some key
(the `any` guard, since `max` forces the whole iterator), or the `.unwrap()`
panic when no version parses.  Note the Rust function returns a plain
`String`: it has no error channel at all. -/
def CratesDep.get_last_version (d : CratesDep) : Option String :=
  if d.versionKeys.any (fun v => (OrdVersion.parse v).isNone) then none
  else (listMaxV d.parsedVersions).map OrdVersion.render

/-- Embedding of `CratesDep::has_version`: `self.versions.contains_key(vs)`. -/
def CratesDep.has_version (d : CratesDep) (vs : String) : Bool :=
  d.versionKeys.contains vs

/-- Embedding of `CratesDep::get_features`: `self.versions.get(vs)`. -/
def CratesDep.get_features (d : CratesDep) (vs : String) : Option (List String) :=
  (d.versions.find? (fun kv => kv.1 == vs)).map Prod.snd

/-- Definition following the words of claim C4 ("stripping the entire leading
run of non-digit characters" when the first character is not an ASCII digit);
otherwise identical in structure to `OrdVersion.parse`.  Total: the claim
describes no panic, so the empty string simply flows into component parsing. -/
def parseVersionSpec (s : String) : Except String OrdVersion :=
  match (preDash s).toList.head? with
  | none => parseParts (splitOnChar '.' (preDash s))
  | some start =>
    if start.isDigit then parseParts (splitOnChar '.' (preDash s))
    else parseParts (splitOnChar '.'
      (String.mk ((preDash s).toList.dropWhile (fun c => !c.isDigit))))

/-- Definition following the amended claim C4: when the first character of the
pre-dash part is not an ASCII digit, strip the leading run of occurrences of
that first character (not of all non-digits). -/
def parseVersionSpecFixed (s : String) : Except String OrdVersion :=
  match (preDash s).toList.head? with
  | none => parseParts (splitOnChar '.' (preDash s))
  | some start =>
    if start.isDigit then parseParts (splitOnChar '.' (preDash s))
    else parseParts (splitOnChar '.'
      (String.mk ((preDash s).toList.dropWhile (fun c => c = start))))

/-- Parsed request from dep.rs: `PDep { name, version, features, target }`. -/
structure PDep where
  name : String
  version : String
  features : String
  target : String
deriving DecidableEq

/-- Parser states of `parse_dep` (dep.rs): Name, Version, Features, Target. -/
inductive DPState where
  | nameSt
  | versionSt
  | featuresSt
  | targetSt
deriving DecidableEq

/-- Mutable locals of the `parse_dep` loop: the four accumulated sections,
the three one-shot transition flags and the current state. -/
structure PAcc where
  name : String
  version : String
  features : String
  target : String
  onceVersion : Bool
  onceFeatures : Bool
  onceTarget : Bool
  state : DPState
deriving DecidableEq

/-- Lookahead guard used by all three transition arms:
`chars.peek().is_some() && chars.peek().unwrap().is_alphanumeric()`. -/
def peekAlnum (peek : Option Char) : Bool :=
  match peek with
  | some c => c.isAlphanum
  | none => false

/-- The diagnostic error built by the final match arm of `parse_dep`. -/
def parseDepError (acc : PAcc) : String :=
  "parse error\ncurstate:\n  " ++ acc.name ++ "\n  " ++ acc.version ++ "\n  "
    ++ acc.features ++ "\n  " ++ acc.target ++ "\n  " ++
    (match acc.state with
     | DPState.nameSt => "name"
     | DPState.versionSt => "version"
     | DPState.featuresSt => "features"
     | DPState.targetSt => "target")

/-- One iteration of the `while let Some(c) = chars.next()` loop of
`parse_dep` (dep.rs, lines 291-360), with the match arms in source order.
`peek` is the next character, if any. -/
def stepChar (acc : PAcc) (c : Char) (peek : Option Char) : Except String PAcc :=
  if c = '@' ∧ acc.state = DPState.nameSt ∧ peekAlnum peek ∧ acc.onceVersion = false then
    Except.ok ⟨acc.name, acc.version, acc.features, acc.target,
      true, acc.onceFeatures, acc.onceTarget, DPState.versionSt⟩
  else if c = ':' ∧ (acc.state = DPState.nameSt ∨ acc.state = DPState.versionSt)
      ∧ peekAlnum peek ∧ acc.onceFeatures = false then
    Except.ok ⟨acc.name, acc.version, acc.features, acc.target,
      acc.onceVersion, true, acc.onceTarget, DPState.featuresSt⟩
  else if c = '!' ∧ ¬acc.state = DPState.targetSt ∧ peekAlnum peek ∧ acc.onceTarget = false then
    Except.ok ⟨acc.name, acc.version, acc.features, acc.target,
      acc.onceVersion, acc.onceFeatures, true, DPState.targetSt⟩
  else if (c.isAlphanum ∨ c = '.' ∨ c = '-' ∨ c = '_') ∧ acc.state = DPState.versionSt then
    Except.ok ⟨acc.name, acc.version.push c, acc.features, acc.target,
      acc.onceVersion, acc.onceFeatures, acc.onceTarget, acc.state⟩
  else if (c.isAlphanum ∨ c = ',' ∨ c = '-' ∨ c = '_') ∧ acc.state = DPState.featuresSt then
    Except.ok ⟨acc.name, acc.version, acc.features.push c, acc.target,
      acc.onceVersion, acc.onceFeatures, acc.onceTarget, acc.state⟩
  else if (c.isAlphanum ∨ c = '-' ∨ c = '_') ∧ acc.state = DPState.nameSt then
    Except.ok ⟨acc.name.push c, acc.version, acc.features, acc.target,
      acc.onceVersion, acc.onceFeatures, acc.onceTarget, acc.state⟩
  else if (c.isAlphanum ∨ c = '-' ∨ c = '_') ∧ acc.state = DPState.targetSt then
    Except.ok ⟨acc.name, acc.version, acc.features, acc.target.push c,
      acc.onceVersion, acc.onceFeatures, acc.onceTarget, acc.state⟩
  else if c.isAlphanum then
    match acc.state with
    | DPState.nameSt => Except.ok ⟨acc.name.push c, acc.version, acc.features, acc.target,
        acc.onceVersion, acc.onceFeatures, acc.onceTarget, acc.state⟩
    | DPState.versionSt => Except.ok ⟨acc.name, acc.version.push c, acc.features, acc.target,
        acc.onceVersion, acc.onceFeatures, acc.onceTarget, acc.state⟩
    | DPState.featuresSt => Except.ok ⟨acc.name, acc.version, acc.features.push c, acc.target,
        acc.onceVersion, acc.onceFeatures, acc.onceTarget, acc.state⟩
    | DPState.targetSt => Except.ok ⟨acc.name, acc.version, acc.features, acc.target.push c,
        acc.onceVersion, acc.onceFeatures, acc.onceTarget, acc.state⟩
  else Except.error (parseDepError acc)

/-- The parse loop of `parse_dep`, threading the accumulator over the
character list; the peeked character is the head of the remainder. -/
def runParse : PAcc → List Char → Except String PAcc
  | acc, [] => Except.ok acc
  | acc, c :: rest =>
    match stepChar acc c rest.head? with
    | Except.error e => Except.error e
    | Except.ok acc2 => runParse acc2 rest

/-- Model of Rust `str::trim` (ASCII whitespace from both ends). -/
def trimChars (s : String) : String :=
  String.mk (((s.toList.dropWhile Char.isWhitespace).reverse.dropWhile
    Char.isWhitespace).reverse)

/-- Embedding of `parse_dep` (dep.rs, lines 266-367): trim, reject the empty
token, then run the character state machine from the Name state. -/
def parse_dep (s : String) : Except String PDep :=
  let t := trimChars s
  if t.toList.isEmpty then Except.error "provided empty string"
  else
    match runParse ⟨"", "", "", "", false, false, false, DPState.nameSt⟩ t.toList with
    | Except.error e => Except.error e
    | Except.ok a => Except.ok ⟨a.name, a.version, a.features, a.target⟩

/-- Alias lookup: `aliases.get(d)` on the alias `HashMap`, embedded as an
association list. -/
def aliasLookup (aliases : List (String × String)) (d : String) : Option String :=
  (aliases.find? (fun kv => kv.1 == d)).map Prod.snd

/-- The per-token results collected by the loop of `parse_deps` (dep.rs,
lines 252-263): the input is trimmed and split on `/`; a segment that is an
alias key expands (one level) and each expansion segment is parsed, otherwise
the segment itself is parsed. -/
def tokenResults (s : String) (aliases : List (String × String)) :
    List (Except String PDep) :=
  ((splitOnChar '/' (trimChars s)).map (fun d =>
    match aliasLookup aliases d with
    | some exp => (splitOnChar '/' exp).map parse_dep
    | none => [parse_dep d])).flatten

/-- Model of `res.into_iter().collect::<Result<Vec<_>>>()`: the whole list on
success, the first error otherwise. -/
def sequenceExcept : List (Except String PDep) → Except String (List PDep)
  | [] => Except.ok []
  | Except.error e :: _ => Except.error e
  | Except.ok d :: rest =>
    match sequenceExcept rest with
    | Except.error e => Except.error e
    | Except.ok ds => Except.ok (d :: ds)

/-- Embedding of `parse_deps` (dep.rs, lines 252-264). -/
def parse_deps (s : String) (aliases : List (String × String)) :
    Except String (List PDep) :=
  sequenceExcept (tokenResults s aliases)

/-- Resolved dependency from dep.rs: `Dep { name, version, features }`. -/
structure Dep where
  name : String
  version : String
  features : Option (List String)
deriving DecidableEq

/-- The feature-validation loop of `normalize` (dep.rs, lines 136-149): walk
the requested features in order, accumulate members of the chosen version's
feature list, and stop at the first non-member with the error
`"invalid features: {}"` naming it. -/
def collectFeatures (ffeatures : List String) : List String → Except String (List String)
  | [] => Except.ok []
  | p :: rest =>
    if ffeatures.contains p then
      match collectFeatures ffeatures rest with
      | Except.error e => Except.error e
      | Except.ok l => Except.ok (p :: l)
    else Except.error ("invalid features: " ++ p)

/-- The `let version = ...` phase of `normalize` (dep.rs, lines 124-130).
`none` models the panic that `fdep.get_last_version()` can raise. -/
def chooseVersion (p : PDep) (f : CratesDep) : Option (Except String String) :=
  if p.version = "" then
    match f.get_last_version with
    | none => none
    | some v => some (Except.ok v)
  else if f.has_version p.version then some (Except.ok p.version)
  else some (Except.error "invalid version")

/-- The `let features = ...` phase of `normalize` (dep.rs, lines 131-154). -/
def chooseFeatures (p : PDep) (f : CratesDep) (version : String) :
    Except String (Option (List String)) :=
  if p.features = "" then Except.ok none
  else
    match f.get_features version with
    | some ffeatures =>
      match collectFeatures ffeatures (splitOnChar ',' p.features) with
      | Except.ok rfeatures => Except.ok (some rfeatures)
      | Except.error e => Except.error e
    | none => Except.error "invalid features, strange"

/-- Embedding of `normalize` (dep.rs, lines 122-161): pick the version, then
the features, propagating errors as the source's early returns do; the
result's name is the snapshot's name.  (Named `Dep.normalize` because the
source's bare name `normalize` is taken by the ambient library.) -/
def Dep.normalize (p : PDep) (f : CratesDep) : Option (Except String Dep) :=
  match chooseVersion p f with
  | none => none
  | some (Except.error e) => some (Except.error e)
  | some (Except.ok version) =>
    match chooseFeatures p f version with
    | Except.error e => some (Except.error e)
    | Except.ok features => some (Except.ok ⟨f.name, version, features⟩)

/-- Dependency kind from dep.rs: `DType`. -/
inductive DType where
  | normal
  | dev
  | build
  | os (s : String)
deriving DecidableEq

/-- Model of Rust `str::to_lowercase` (ASCII case folding, character-wise). -/
def toLowerStr (s : String) : String :=
  String.mk (s.toList.map Char.toLower)

/-- Embedding of `From<S> for DType` (dep.rs, lines 12-23): match on the
lowercased tag, empty-after-trim also maps to Normal. -/
def DType.ofString (s : String) : DType :=
  let t := toLowerStr s
  if t = "dev" then DType.dev
  else if t = "build" then DType.build
  else if t = "normal" then DType.normal
  else if (trimChars t).toList.isEmpty then DType.normal
  else DType.os t

/-- Embedding of `DType::to_cargo_field` (dep.rs, lines 26-33). -/
def DType.to_cargo_field : DType → String
  | DType.normal => "dependencies"
  | DType.dev => "dev-dependencies"
  | DType.build => "build-dependencies"
  | DType.os s => "target.\x27cfg(" ++ s ++ ")\x27.dependencies"

/-- The fetch-issuing loop shared by `Cargo::append_deps` (cargo.rs, lines
241-244) and `Cargo::init_project` (cargo.rs, lines 180-183):
`for pd in &pdeps { fdeps.push(fetch_crates_dep(&pd.name)); }` — one request
is pushed per parsed dependency.  The returned list is, in order, the package
name of each network fetch issued. -/
def fetchRequests (pdeps : List PDep) : List String :=
  pdeps.foldl (fun acc pd => acc ++ [pd.name]) []

/-- A manifest dependency table (toml `Table` of one kind section):
dependency name to entry; `insert` overwrites an existing key. -/
def upsertDep (table : List (String × Dep)) (name : String) (d : Dep) :
    List (String × Dep) :=
  match table with
  | [] => [(name, d)]
  | kv :: rest =>
    if kv.1 = name then (name, d) :: rest else kv :: upsertDep rest name d

/-- Inserting a group of resolved dependencies into one kind's table, in
order, as the `for d in ds { deps.insert(name, attrs) }` loops do. -/
def insertDeps (table : List (String × Dep)) (ds : List Dep) : List (String × Dep) :=
  ds.foldl (fun t d => upsertDep t d.name d) table

/-- Grouping accumulator matching
`hmdeps.entry(DType::from(target)).and_modify(push).or_insert(vec![d])`. -/
def upsertGroup (groups : List (DType × List Dep)) (t : DType) (d : Dep) :
    List (DType × List Dep) :=
  match groups with
  | [] => [(t, [d])]
  | g :: rest =>
    if g.1 = t then (g.1, g.2 ++ [d]) :: rest else g :: upsertGroup rest t d

/-- The grouping loop of `append_deps` / `init_project`: resolved dependency
`i` is filed under the kind derived from request `i`'s target tag. -/
def groupByTarget (pdeps : List PDep) (ds : List Dep) : List (DType × List Dep) :=
  (pdeps.zip ds).foldl (fun acc pd => upsertGroup acc (DType.ofString pd.1.target) pd.2) []

/-- The manifest content relevant here: the kind sections (keyed by
`to_cargo_field`) with their dependency tables. -/
abbrev ManifestTables : Type := List (String × List (String × Dep))

/-- The merge loop of `append_deps` (cargo.rs, lines 276-298): an existing
section receives inserts (overwriting same names), a missing section is
created.  (The source's `Some(non-table)` arm only prints and cannot arise in
this model, whose sections are always dependency tables.) -/
def mergeTables (content : ManifestTables) (groups : List (DType × List Dep)) :
    ManifestTables :=
  groups.foldl (fun c g =>
    if c.any (fun kv => kv.1 == DType.to_cargo_field g.1) then
      c.map (fun kv =>
        if kv.1 == DType.to_cargo_field g.1 then (kv.1, insertDeps kv.2 g.2) else kv)
    else c ++ [(DType.to_cargo_field g.1, insertDeps [] g.2)]) content

/-- The resolution loop of `append_deps` (cargo.rs, lines 261-274): normalize
request `i` against snapshot `i`, propagating errors and panics; a missing
snapshot (index out of range) is a panic. -/
def normalizeAll : List PDep → List CratesDep → Option (Except String (List Dep))
  | [], _ => some (Except.ok [])
  | _ :: _, [] => none
  | p :: ps, f :: fs =>
    match Dep.normalize p f with
    | none => none
    | some (Except.error e) => some (Except.error e)
    | some (Except.ok d) =>
      match normalizeAll ps fs with
      | none => none
      | some (Except.error e) => some (Except.error e)
      | some (Except.ok ds) => some (Except.ok (d :: ds))

/-- Embedding of the batch phase of `Cargo::append_deps` (cargo.rs, lines
236-304), starting after the manifest has been read and the input parsed.
`fetches` holds the outcome of the concurrent fetch issued for each request
(`none` is a failed fetch).  As in the source, `join_all(..).flatten()` drops
failures, the count is compared against the number of issued fetches, and any
mismatch aborts before the manifest is touched; `fs::write` happens exactly
on the `Except.ok` outcome, whose value is the written content. -/
def append_deps (content : ManifestTables) (pdeps : List PDep)
    (fetches : List (Option CratesDep)) : Option (Except String ManifestTables) :=
  if fetches.length ≠ (fetches.filterMap id).length then
    some (Except.error ("error fetching some dependencies: "
      ++ toString (fetches.length - (fetches.filterMap id).length)))
  else
    match normalizeAll pdeps (fetches.filterMap id) with
    | none => none
    | some (Except.error e) => some (Except.error e)
    | some (Except.ok ds) => some (Except.ok (mergeTables content (groupByTarget pdeps ds)))

/-- Executable substring test: does `needle` occur contiguously in `hay`?
Used to state that an error message does or does not mention a given
string. -/
def listInfix (needle hay : List Char) : Bool :=
  (List.range (hay.length + 1)).any (fun i => (hay.drop i).take needle.length == needle)

/-- Lexicographic strict comparison of character lists by code point, which
on UTF-8 strings agrees with Rust's byte-wise `String` order. -/
def charListLt : List Char → List Char → Bool
  | [], [] => false
  | [], _ :: _ => true
  | _ :: _, [] => false
  | a :: as, b :: bs =>
    if a.toNat < b.toNat then true
    else if b.toNat < a.toNat then false
    else charListLt as bs

/-- Rust `String` strict order `a < b`. -/
def strLtb (a b : String) : Bool :=
  charListLt a.toList b.toList

/-- The change count of one kind in `Cargo::update_deps` (cargo.rs, lines
104-109): `for i in 0..uds.len() { if uds[i].version > vds[i] { changed += 1 } }`.
The comparison is Rust `String` order (`strLtb`), i.e. lexicographic on the
bytes, not the parsed `OrdVersion` order.  `none` models the index panic when
`vds` is shorter than `uds`. -/
def changedCount : List Dep → List String → Option Nat
  | [], _ => some 0
  | _ :: _, [] => none
  | u :: us, v :: vs =>
    match changedCount us vs with
    | none => none
    | some n => some ((if strLtb v u.version then 1 else 0) + n)

/-- The per-kind loop of `Cargo::update_deps` (cargo.rs, lines 88-148),
threading `real_updated`: a kind with `changed > 0` bumps the counter and, if
its new and old lists disagree in length, aborts with the source's error. -/
def updateGo : Nat → List (List Dep × List String) → Option (Except String Nat)
  | acc, [] => some (Except.ok acc)
  | acc, kinds :: rest =>
    match changedCount kinds.1 kinds.2 with
    | none => none
    | some changed =>
      if 0 < changed then
        if kinds.1.length ≠ kinds.2.length then
          some (Except.error "damn error in fetching and updating deps")
        else updateGo (acc + 1) rest
      else updateGo acc rest

/-- Embedding of the decision core of `Cargo::update_deps`: given, per kind,
the re-resolved dependencies and the old version strings, the final
`real_updated` count.  The source executes `fs::write` exactly when this
count is positive (cargo.rs, lines 145-148); a zero count is a successful
no-op run. -/
def update_run (frs : List (List Dep × List String)) : Option (Except String Nat) :=
  updateGo 0 frs

example : OrdVersion.parse "1.5" = some (Except.ok ⟨1, 5, 0⟩) := by decide
example : OrdVersion.parse "v1.2.3" = some (Except.ok ⟨1, 2, 3⟩) := by decide
example : OrdVersion.parse "2.0.0-beta" = some (Except.ok ⟨2, 0, 0⟩) := by decide
example : OrdVersion.parse "" = none := by decide
example : OrdVersion.parse "-x" = none := by decide
example : OrdVersion.parse "ab1" = some (Except.error "invalid digit") := by decide
example : OrdVersion.parse "1.2.3.4" = some (Except.error "invalid parts 4") := by decide
example : CratesDep.get_last_version ⟨"x", []⟩ = none := by decide
example : CratesDep.get_last_version
    ⟨"x", [("1.0.0", []), ("2.0.0-beta", []), ("1.5.2", [])]⟩ = some "2.0.0" := by decide
example : parseVersionSpec "ab1" = Except.ok ⟨1, 0, 0⟩ := by decide
example : parse_dep "a@1.0:f1,f2!dev" = Except.ok ⟨"a", "1.0", "f1,f2", "dev"⟩ := by decide
example : parse_dep "a" = Except.ok ⟨"a", "", "", ""⟩ := by decide
example : parse_dep "" = Except.error "provided empty string" := by decide
example : parse_deps "a/" [] = Except.error "provided empty string" := by decide
example : parse_deps "a/b" [] = Except.ok [⟨"a", "", "", ""⟩, ⟨"b", "", "", ""⟩] := by decide
example : parse_deps "w" [("w", "x/y")] =
    Except.ok [⟨"x", "", "", ""⟩, ⟨"y", "", "", ""⟩] := by decide
example : Dep.normalize ⟨"a", "1.0", "f1,f2", ""⟩ ⟨"a", [("1.0", ["f1", "f2", "f3"])]⟩ =
    some (Except.ok ⟨"a", "1.0", some ["f1", "f2"]⟩) := by decide
example : Dep.normalize ⟨"a", "9.9.9", "", ""⟩ ⟨"a", [("1.0", [])]⟩ =
    some (Except.error "invalid version") := by decide
example : Dep.normalize ⟨"a", "1.0", "f9", ""⟩ ⟨"a", [("1.0", ["f1"])]⟩ =
    some (Except.error "invalid features: f9") := by decide
example : Dep.normalize ⟨"a", "", "", ""⟩ ⟨"a", [("2.0.0", []), ("1.0.0", [])]⟩ =
    some (Except.ok ⟨"a", "2.0.0", none⟩) := by decide
example : append_deps [] [⟨"a", "", "", ""⟩] [none] =
    some (Except.error "error fetching some dependencies: 1") := by decide
example : append_deps [] [⟨"a", "", "", ""⟩] [some ⟨"a", [("1.0.0", [])]⟩] =
    some (Except.ok [("dependencies", [("a", ⟨"a", "1.0.0", none⟩)])]) := by decide
example : changedCount [⟨"x", "10.0.0", none⟩] ["9.0.0"] = some 0 := by decide
example : changedCount [⟨"x", "2.0.0", none⟩] ["1.0.0"] = some 1 := by decide
example : update_run [([⟨"x", "1.0.0", none⟩], ["1.0.0"])] =
    some (Except.ok 0) := by decide

/-! ### Helper lemmas about the ordering and the fold-based maximum -/

lemma ltb_irrefl (a : OrdVersion) : OrdVersion.ltb a a = false := by
  simp [OrdVersion.ltb]

lemma ltb_trans {a b c : OrdVersion} (h1 : OrdVersion.ltb a b = true)
    (h2 : OrdVersion.ltb b c = true) : OrdVersion.ltb a c = true := by
  cases a; cases b; cases c
  simp [OrdVersion.ltb] at h1 h2 ⊢
  omega

lemma ltb_false_total {a b : OrdVersion} (h1 : OrdVersion.ltb a b = false)
    (h2 : OrdVersion.ltb b a = false) : a = b := by
  cases a; cases b
  simp [OrdVersion.ltb] at h1 h2
  simp [OrdVersion.mk.injEq]
  omega

lemma foldl_maxStep_some (l : List OrdVersion) :
    ∀ a : OrdVersion, ∃ m, l.foldl maxStep (some a) = some m ∧
      (m = a ∨ m ∈ l) ∧ OrdVersion.ltb m a = false ∧
      ∀ x ∈ l, OrdVersion.ltb m x = false := by
  induction l with
  | nil =>
    intro a
    exact ⟨a, rfl, Or.inl rfl, ltb_irrefl a, by simp⟩
  | cons v rest ih =>
    intro a
    by_cases hav : OrdVersion.ltb a v = true
    · obtain ⟨m, hm, hmem, hma, hall⟩ := ih v
      refine ⟨m, ?_, ?_, ?_, ?_⟩
      · simpa [List.foldl_cons, maxStep, hav] using hm
      · rcases hmem with h | h
        · exact Or.inr (h ▸ List.mem_cons_self v rest)
        · exact Or.inr (List.mem_cons_of_mem v h)
      · cases hma2 : OrdVersion.ltb m a with
        | false => rfl
        | true =>
          have : OrdVersion.ltb a v = true := hav
          cases hmv : OrdVersion.ltb m v with
          | true => rw [hmv] at hma; exact absurd hma (by simp)
          | false =>
            have := ltb_trans hma2 this
            rw [this] at hma
            exact absurd hma (by simp)
      · intro x hx
        rcases List.mem_cons.mp hx with h | h
        · exact h ▸ hma
        · exact hall x h
    · obtain ⟨m, hm, hmem, hma, hall⟩ := ih a
      have hav' : OrdVersion.ltb a v = false := by
        cases h : OrdVersion.ltb a v with
        | false => rfl
        | true => exact absurd h hav
      refine ⟨m, ?_, ?_, ?_, ?_⟩
      · simpa [List.foldl_cons, maxStep, hav'] using hm
      · rcases hmem with h | h
        · exact Or.inl h
        · exact Or.inr (List.mem_cons_of_mem v h)
      · exact hma
      · intro x hx
        rcases List.mem_cons.mp hx with h | h
        · subst h
          cases hmx : OrdVersion.ltb m x with
          | false => rfl
          | true =>
            have := ltb_trans (a := a) (b := m) (c := x)
            cases hma2 : OrdVersion.ltb a m with
            | true =>
              have h3 := ltb_trans hma2 hmx
              rw [h3] at hav'
              cases hav'
            | false =>
              have heq := ltb_false_total hma hma2
              subst heq
              rw [hmx] at hav'
              cases hav'
        · exact hall x h

lemma listMaxV_nil : listMaxV [] = none := rfl

lemma listMaxV_eq_none {l : List OrdVersion} (h : listMaxV l = none) : l = [] := by
  cases l with
  | nil => rfl
  | cons v rest =>
    exfalso
    obtain ⟨m, hm, _, _, _⟩ := foldl_maxStep_some rest v
    unfold listMaxV at h
    rw [List.foldl_cons] at h
    simp [maxStep] at h
    rw [hm] at h
    cases h

lemma listMaxV_spec {l : List OrdVersion} {m : OrdVersion}
    (h : listMaxV l = some m) : m ∈ l ∧ ∀ x ∈ l, OrdVersion.ltb m x = false := by
  cases l with
  | nil => cases h
  | cons v rest =>
    obtain ⟨m2, hm2, hmem, hma, hall⟩ := foldl_maxStep_some rest v
    unfold listMaxV at h
    rw [List.foldl_cons] at h
    simp only [maxStep] at h
    rw [hm2] at h
    cases h
    constructor
    · rcases hmem with h | h
      · exact h ▸ List.mem_cons_self v rest
      · exact List.mem_cons_of_mem v h
    · intro x hx
      rcases List.mem_cons.mp hx with h | h
      · exact h ▸ hma
      · exact hall x h

/-! ### Helper lemmas about result collection, feature validation and the batch loops -/

lemma sequenceExcept_all_ok (l : List (Except String PDep))
    (h : l.all (fun r => r.isOk) = true) :
    sequenceExcept l = Except.ok (l.filterMap (fun r => r.toOption)) := by
  induction l with
  | nil => rfl
  | cons r rest ih =>
    simp only [List.all_cons, Bool.and_eq_true] at h
    cases r with
    | error e => simp [Except.isOk, Except.toBool] at h
    | ok d =>
      simp only [sequenceExcept, ih h.2, List.filterMap_cons]
      rfl

lemma sequenceExcept_has_err (l : List (Except String PDep))
    (h : l.all (fun r => r.isOk) = false) :
    ∃ e, sequenceExcept l = Except.error e ∧ Except.error e ∈ l := by
  induction l with
  | nil => cases h
  | cons r rest ih =>
    cases r with
    | error e => exact ⟨e, rfl, List.mem_cons_self _ _⟩
    | ok d =>
      simp only [List.all_cons, Bool.and_eq_true] at h
      have hrest : rest.all (fun r => r.isOk) = false := by
        cases hr : rest.all (fun r => r.isOk) with
        | false => rfl
        | true => rw [hr] at h; simp [Except.isOk, Except.toBool] at h
      obtain ⟨e, he, hmem⟩ := ih hrest
      refine ⟨e, ?_, List.mem_cons_of_mem _ hmem⟩
      simp only [sequenceExcept, he]

lemma collectFeatures_all_mem (fl : List String) (l : List String)
    (h : ∀ x ∈ l, fl.contains x = true) :
    collectFeatures fl l = Except.ok l := by
  induction l with
  | nil => rfl
  | cons p rest ih =>
    have hp := h p (List.mem_cons_self _ _)
    have hrest := ih (fun x hx => h x (List.mem_cons_of_mem _ hx))
    simp only [collectFeatures, hp, if_true, hrest]

lemma collectFeatures_first_bad (fl : List String) (l : List String) (x : String)
    (h : l.find? (fun y => !(fl.contains y)) = some x) :
    collectFeatures fl l = Except.error ("invalid features: " ++ x) := by
  induction l with
  | nil => cases h
  | cons p rest ih =>
    by_cases hp : fl.contains p = true
    · rw [List.find?_cons_of_neg] at h
      · have h2 := ih h
        simp only [collectFeatures, hp, if_true, h2]
      · simp only [Bool.not_eq_true, Bool.not_eq_false]
        simpa using hp
    · have hp' : fl.contains p = false := by
        cases hq : fl.contains p with
        | false => rfl
        | true => exact absurd hq hp
      rw [List.find?_cons_of_pos] at h
      · cases h
        simp only [collectFeatures, hp', if_false, Bool.false_eq_true]
      · simpa using hp'

lemma filterMap_id_length_lt {α : Type} (l : List (Option α))
    (h : none ∈ l) : (l.filterMap id).length < l.length := by
  induction l with
  | nil => cases h
  | cons o rest ih =>
    cases o with
    | none =>
      have hle := List.length_filterMap_le id rest
      have hstep : List.filterMap id (none :: rest) = List.filterMap id rest := by simp
      rw [hstep]
      simp only [List.length_cons]
      omega
    | some a =>
      have hmem : none ∈ rest := by
        rcases List.mem_cons.mp h with h2 | h2
        · cases h2
        · exact h2
      have hlt := ih hmem
      have hstep : List.filterMap id (some a :: rest) = a :: List.filterMap id rest := by simp
      rw [hstep]
      simp only [List.length_cons]
      omega

lemma filterMap_id_length_eq_all_some {α : Type} (l : List (Option α))
    (h : (l.filterMap id).length = l.length) : ∀ x ∈ l, x ≠ none := by
  intro x hx hnone
  subst hnone
  have := filterMap_id_length_lt l hx
  omega

lemma updateGo_ok (frs : List (List Dep × List String))
    (h : ∀ pr ∈ frs, pr.1.length = pr.2.length) :
    ∀ acc, ∃ n, updateGo acc frs = some (Except.ok n) ∧
      (0 < n ↔ 0 < acc ∨ ∃ pr ∈ frs, ∃ c, changedCount pr.1 pr.2 = some c ∧ 0 < c) := by
  induction frs with
  | nil =>
    intro acc
    exact ⟨acc, rfl, by simp⟩
  | cons kinds rest ih =>
    intro acc
    have hlen : kinds.1.length = kinds.2.length := h kinds (List.mem_cons_self _ _)
    have hrest : ∀ pr ∈ rest, pr.1.length = pr.2.length :=
      fun pr hpr => h pr (List.mem_cons_of_mem _ hpr)
    have hcc : ∃ c, changedCount kinds.1 kinds.2 = some c := by
      clear h ih
      obtain ⟨uds, vds⟩ := kinds
      simp only at hlen ⊢
      induction uds generalizing vds with
      | nil => exact ⟨0, rfl⟩
      | cons u us ih2 =>
        cases vds with
        | nil => simp at hlen
        | cons v vs =>
          simp only [List.length_cons] at hlen
          obtain ⟨c, hc⟩ := ih2 vs (by omega)
          exact ⟨(if strLtb v u.version then 1 else 0) + c, by simp [changedCount, hc]⟩
    obtain ⟨c, hc⟩ := hcc
    by_cases hpos : 0 < c
    · obtain ⟨n, hn, hiff⟩ := ih hrest (acc + 1)
      refine ⟨n, ?_, ?_⟩
      · simp only [updateGo, hc, hpos, if_pos, hlen]
        simp [hn]
      · rw [hiff]
        constructor
        · intro _
          exact Or.inr ⟨kinds, List.mem_cons_self _ _, c, hc, hpos⟩
        · intro _
          omega
    · obtain ⟨n, hn, hiff⟩ := ih hrest acc
      have hc0 : c = 0 := by omega
      subst hc0
      refine ⟨n, ?_, ?_⟩
      · simp only [updateGo, hc]
        simp [hn]
      · rw [hiff]
        constructor
        · intro h2
          rcases h2 with h2 | ⟨pr, hpr, c2, hc2, hc2pos⟩
          · exact Or.inl h2
          · exact Or.inr ⟨pr, List.mem_cons_of_mem _ hpr, c2, hc2, hc2pos⟩
        · intro h2
          rcases h2 with h2 | ⟨pr, hpr, c2, hc2, hc2pos⟩
          · exact Or.inl h2
          · rcases List.mem_cons.mp hpr with h3 | h3
            · subst h3
              rw [hc] at hc2
              cases hc2
              omega
            · exact Or.inr ⟨pr, h3, c2, hc2, hc2pos⟩

/-! ### Claim C1 -/

/-- C1 counterexample.  The claim states that, when no version in the
snapshot parses (including the empty snapshot), `get_last_version` fails
with an `EmptyRegistryResult` error rather than any other behaviour, such as
a panic.  In the source the function's return type is a plain `String` — it
has no error channel at all — and on an empty-after-filter snapshot it
panics via `.unwrap()` on `None`.  In this embedding `none` is exactly that
panic, so both on the empty snapshot and on a snapshot whose single version
string fails to parse the result is the modelled panic, not an error. -/
theorem C1_counterexample :
    CratesDep.get_last_version ⟨"x", []⟩ = none ∧
    CratesDep.get_last_version ⟨"x", [("x", [])]⟩ = none := by decide

/-- C1 (amended): for every snapshot none of whose version strings makes
`OrdVersion::parse` itself panic, `get_last_version` returns the maximum, in
the (major, minor, patch) lexicographic order, over exactly those versions
that parse (failures are silently excluded), rendered as
`major.minor.patch`; and it panics (`unwrap` on `None`, modelled as `none`)
exactly when no version in the snapshot parses, including when the snapshot
is empty. -/
theorem C1_get_last_version_max (d : CratesDep)
    (h : ∀ v ∈ d.versionKeys, OrdVersion.parse v ≠ none) :
    (d.parsedVersions = [] → d.get_last_version = none) ∧
    (∀ m, listMaxV d.parsedVersions = some m →
      d.get_last_version = some m.render ∧ m ∈ d.parsedVersions ∧
      ∀ x ∈ d.parsedVersions, OrdVersion.ltb m x = false) := by
  have hg : d.versionKeys.any (fun v => (OrdVersion.parse v).isNone) = false := by
    rw [List.any_eq_false]
    intro v hv
    cases hp : OrdVersion.parse v with
    | none => exact absurd hp (h v hv)
    | some r => simp
  constructor
  · intro hnil
    unfold CratesDep.get_last_version
    rw [hg, hnil]
    rfl
  · intro m hm
    refine ⟨?_, listMaxV_spec hm⟩
    unfold CratesDep.get_last_version
    rw [hg]
    simp [hm]

/-- C1 witness: on the snapshot with versions 1.0.0, 2.0.0-beta and 1.5.2
(all parseable, the suffix being stripped), the last version is 2.0.0. -/
theorem C1_witness :
    CratesDep.get_last_version
      ⟨"x", [("1.0.0", []), ("2.0.0-beta", []), ("1.5.2", [])]⟩ =
      some (OrdVersion.render ⟨2, 0, 0⟩) :=
  ((C1_get_last_version_max _ (by decide)).2 ⟨2, 0, 0⟩ (by decide)).1

/-! ### Claim C2 -/

/-- C2 counterexample.  The claim states that the number of registry fetches
equals the number of distinct package names, so duplicates never fetch
twice.  In the source the fetch loop pushes one `fetch_crates_dep` per
parsed request with no deduplication: two requests named "serde" issue two
fetches while the distinct-name count is one. -/
theorem C2_counterexample :
    (fetchRequests [⟨"serde", "", "", ""⟩, ⟨"serde", "", "", ""⟩]).length = 2 ∧
    (fetchRequests [⟨"serde", "", "", ""⟩, ⟨"serde", "", "", ""⟩]).dedup.length = 1 ∧
    (2 : Nat) ≠ 1 := by decide

/-- C2 (amended): for every list of parsed requests passed to the
resolve-new-set operation (add / init), the number of registry fetches
issued equals the number of requests in the list — one fetch per request, in
order, so duplicate names do trigger duplicate network fetches. -/
theorem C2_fetch_per_request (pdeps : List PDep) :
    (fetchRequests pdeps).length = pdeps.length ∧
    fetchRequests pdeps = pdeps.map (fun pd => pd.name) := by
  have hgen : ∀ acc : List String,
      pdeps.foldl (fun acc pd => acc ++ [pd.name]) acc
        = acc ++ pdeps.map (fun pd => pd.name) := by
    induction pdeps with
    | nil => intro acc; simp
    | cons p rest ih =>
      intro acc
      simp only [List.foldl_cons, List.map_cons, ih, List.append_assoc,
        List.singleton_append]
  have h2 : fetchRequests pdeps = pdeps.map (fun pd => pd.name) := by
    unfold fetchRequests
    rw [hgen []]
    simp
  exact ⟨by rw [h2, List.length_map], h2⟩

/-! ### Claim C3 -/

/-- C3 counterexample.  The claim states that `parse_deps` yields one parsed
request per successfully parsed token even when some other token in the same
input fails, the caller deciding whether a failure aborts the batch.  In the
source the per-token results are collected into `Result<Vec<_>>`, which
short-circuits: on input "a/" the token "a" parses fine, yet `parse_deps`
returns only the error of the empty second token and no parsed requests at
all. -/
theorem C3_counterexample :
    parse_deps "a/" [] = Except.error "provided empty string" ∧
    parse_dep "a" = Except.ok ⟨"a", "", "", ""⟩ := by decide

/-- C3 (amended): `parse_dep` is applied to every token of the input, but
`parse_deps` returns the collected list only when every token parses; if any
token fails, `parse_deps` returns the first token error itself (so the
parser, not the caller, aborts the batch). -/
theorem C3_all_or_first_error (s : String) (aliases : List (String × String)) :
    ((tokenResults s aliases).all (fun r => r.isOk) = true →
      parse_deps s aliases
        = Except.ok ((tokenResults s aliases).filterMap (fun r => r.toOption))) ∧
    ((tokenResults s aliases).all (fun r => r.isOk) = false →
      ∃ e, parse_deps s aliases = Except.error e
        ∧ Except.error e ∈ tokenResults s aliases) :=
  ⟨fun h => sequenceExcept_all_ok _ h, fun h => sequenceExcept_has_err _ h⟩

/-- C3 witness: on "ab/cd" with no aliases every token parses and
`parse_deps` returns both requests. -/
theorem C3_witness :
    parse_deps "ab/cd" [] = Except.ok [⟨"ab", "", "", ""⟩, ⟨"cd", "", "", ""⟩] :=
  ((C3_all_or_first_error "ab/cd" []).1 (by decide)).trans (by decide)

/-! ### Claim C4 -/

/-- C4 counterexample.  The claim describes the leading strip as removing
the entire leading run of non-digit characters.  The source instead calls
`trim_start_matches(start)`, which removes the leading run of occurrences of
the first character only: on "ab1" the claim's algorithm
(`parseVersionSpec`) yields (1,0,0) while the source leaves "b1" and fails
with a numeric parse error. -/
theorem C4_counterexample :
    OrdVersion.parse "ab1" = some (Except.error "invalid digit") ∧
    parseVersionSpec "ab1" = Except.ok ⟨1, 0, 0⟩ := by decide

/-- C4 (amended): for every input string whose portion before the first `-`
is nonempty, `parse_version` proceeds by removing the portion after the
first `-`; if the first remaining character is not an ASCII digit, stripping
the leading run of occurrences of that first character; splitting the rest
on `.`; accepting exactly 1, 2 or 3 numeric components with missing trailing
components defaulted to 0; and returning a parse error for any other
component count. -/
theorem C4_parse_amended (s : String) (h : (preDash s).toList ≠ []) :
    OrdVersion.parse s = some (parseVersionSpecFixed s) := by
  cases hl : (preDash s).toList with
  | nil => exact absurd hl h
  | cons start rest =>
    unfold OrdVersion.parse parseVersionSpecFixed
    rw [hl]
    simp only [List.head?_cons]
    by_cases hd : start.isDigit <;> simp [hd]

/-- C4 witness: "v1.2" has a nonempty pre-dash part and the source parse
agrees with the amended description there. -/
theorem C4_witness :
    (preDash "v1.2").toList ≠ [] ∧
    OrdVersion.parse "v1.2" = some (parseVersionSpecFixed "v1.2") :=
  ⟨by decide, C4_parse_amended "v1.2" (by decide)⟩

/-! ### Claim C5 -/

/-- C5: in the batch phase of `append_deps`, if any registry fetch failed
then the whole batch errors out — `fs::write` is only reached on the
`Except.ok` outcome, so no write to storage occurs and the manifest is left
unchanged — and an `Except.ok` outcome (the only case in which the manifest
is written) requires every fetch in the batch to have succeeded. -/
theorem C5_no_partial_commit (content : ManifestTables) (pdeps : List PDep)
    (fetches : List (Option CratesDep)) :
    (none ∈ fetches → ∃ e, append_deps content pdeps fetches = some (Except.error e)) ∧
    (∀ c, append_deps content pdeps fetches = some (Except.ok c) →
      ∀ x ∈ fetches, x ≠ none) := by
  constructor
  · intro h
    have hlt := filterMap_id_length_lt fetches h
    refine ⟨"error fetching some dependencies: "
      ++ toString (fetches.length - (fetches.filterMap id).length), ?_⟩
    unfold append_deps
    rw [if_pos (by omega)]
  · intro c hc x hx hxn
    subst hxn
    have hlt := filterMap_id_length_lt fetches hx
    unfold append_deps at hc
    rw [if_pos (by omega)] at hc
    simp at hc

/-- C5 witness: a batch with one failed fetch errors out. -/
theorem C5_witness :
    ∃ e, append_deps [] [⟨"a", "", "", ""⟩] [none] = some (Except.error e) :=
  (C5_no_partial_commit [] [⟨"a", "", "", ""⟩] [none]).1 (by decide)

/-! ### Claim C6 -/

/-- C6 counterexample.  The claim states that a version constraint absent
from the snapshot yields an `InvalidVersion` error naming the requested
string.  The source's error is the fixed message "invalid version": two
requests with different absent constraints ("9.9.9" and "8.8.8") produce the
identical message, which therefore cannot name the requested string, and
indeed "9.9.9" does not occur in it. -/
theorem C6_counterexample :
    Dep.normalize ⟨"x", "9.9.9", "", ""⟩ ⟨"x", [("1.0.0", [])]⟩ =
      some (Except.error "invalid version") ∧
    Dep.normalize ⟨"x", "8.8.8", "", ""⟩ ⟨"x", [("1.0.0", [])]⟩ =
      some (Except.error "invalid version") ∧
    listInfix "9.9.9".toList "invalid version".toList = false := by decide

/-- C6 (amended): if the request's version constraint is empty, the chosen
version is `get_last_version` of the snapshot (sharing its panic, modelled
by `Option.map`); otherwise the constraint must be present in the snapshot's
version map as an exact string key (no range or semver-compatible matching),
and if it is absent the resolver returns an `InvalidVersion` error with the
fixed message "invalid version", which does not name the requested
string. -/
theorem C6_version_selection (p : PDep) (f : CratesDep) :
    (p.version = "" → chooseVersion p f = f.get_last_version.map Except.ok) ∧
    (p.version ≠ "" → f.has_version p.version = true →
      chooseVersion p f = some (Except.ok p.version)) ∧
    (p.version ≠ "" → f.has_version p.version = false →
      Dep.normalize p f = some (Except.error "invalid version")) := by
  refine ⟨?_, ?_, ?_⟩
  · intro h
    unfold chooseVersion
    rw [if_pos h]
    cases f.get_last_version <;> rfl
  · intro h hv
    unfold chooseVersion
    rw [if_neg h, if_pos hv]
  · intro h hv
    unfold Dep.normalize chooseVersion
    rw [if_neg h, if_neg (by simp [hv])]

/-- C6 witness: a present exact constraint is chosen as requested. -/
theorem C6_witness :
    chooseVersion ⟨"x", "1.0.0", "", ""⟩ ⟨"x", [("1.0.0", [])]⟩ =
      some (Except.ok "1.0.0") :=
  (C6_version_selection _ _).2.1 (by decide) (by decide)

/-! ### Claim C7 -/

/-- C7: for a request whose version selection chose `v`, where the snapshot
has a feature-set entry for `v`: an empty `feature_list` yields
`features = None`; otherwise the result's feature list is exactly the
comma-split requested names in the user's requested order, provided every
requested name is a member of the chosen version's feature set, and
otherwise the resolver returns an `InvalidFeature` error naming the first
non-member feature encountered in request order. -/
theorem C7_feature_selection (p : PDep) (f : CratesDep) (v : String)
    (fl : List String)
    (hv : chooseVersion p f = some (Except.ok v))
    (hf : f.get_features v = some fl) :
    (p.features = "" → Dep.normalize p f = some (Except.ok ⟨f.name, v, none⟩)) ∧
    (p.features ≠ "" → (∀ x ∈ splitOnChar ',' p.features, fl.contains x = true) →
      Dep.normalize p f
        = some (Except.ok ⟨f.name, v, some (splitOnChar ',' p.features)⟩)) ∧
    (p.features ≠ "" →
      ∀ x, (splitOnChar ',' p.features).find? (fun y => !(fl.contains y)) = some x →
      Dep.normalize p f = some (Except.error ("invalid features: " ++ x))) := by
  refine ⟨?_, ?_, ?_⟩
  · intro h
    have hcf : chooseFeatures p f v = Except.ok none := by
      unfold chooseFeatures
      simp only [h, if_true]
    simp only [Dep.normalize, hv, hcf]
  · intro h hall
    have hcf : chooseFeatures p f v = Except.ok (some (splitOnChar ',' p.features)) := by
      unfold chooseFeatures
      simp only [if_neg h, hf, collectFeatures_all_mem fl _ hall]
    simp only [Dep.normalize, hv, hcf]
  · intro h x hx
    have hcf : chooseFeatures p f v = Except.error ("invalid features: " ++ x) := by
      unfold chooseFeatures
      simp only [if_neg h, hf, collectFeatures_first_bad fl _ x hx]
    simp only [Dep.normalize, hv, hcf]

/-- C7 witness: requested features "a,b" against declared features a, b, c
resolve to exactly ["a", "b"] in request order. -/
theorem C7_witness :
    Dep.normalize ⟨"x", "1.0.0", "a,b", ""⟩ ⟨"x", [("1.0.0", ["a", "b", "c"])]⟩ =
      some (Except.ok ⟨"x", "1.0.0", some (splitOnChar ',' "a,b")⟩) :=
  (C7_feature_selection _ _ "1.0.0" ["a", "b", "c"]
    (by decide) (by decide)).2.1 (by decide) (by decide)

/-! ### Claim C8 -/

/-- C8: for every update run in which each kind's re-resolved list matches
its old-version list in length (no fetch was dropped), the run succeeds with
a `real_updated` count that is positive — the exact condition under which
the source executes `fs::write` — if and only if at least one kind has
`changed > 0`, where `changed` counts the pairs with `new.version >
old.version`; with zero changes everywhere the run is a successful no-op
with no storage write. -/
theorem C8_write_iff_changed (frs : List (List Dep × List String))
    (h : ∀ pr ∈ frs, pr.1.length = pr.2.length) :
    ∃ n, update_run frs = some (Except.ok n) ∧
      (0 < n ↔ ∃ pr ∈ frs, ∃ c, changedCount pr.1 pr.2 = some c ∧ 0 < c) := by
  obtain ⟨n, hn, hiff⟩ := updateGo_ok frs h 0
  refine ⟨n, hn, ?_⟩
  rw [hiff]
  simp

/-- C8 witness: one Normal entry already at the registry's latest version
gives count 0 — a successful no-op with no write. -/
theorem C8_witness :
    update_run [([⟨"x", "1.0.0", none⟩], ["1.0.0"])] = some (Except.ok 0) ∧
    ∃ n, update_run [([⟨"x", "1.0.0", none⟩], ["1.0.0"])] = some (Except.ok n) ∧
      (0 < n ↔ ∃ pr ∈ [([⟨"x", "1.0.0", none⟩], ["1.0.0"])],
        ∃ c, changedCount pr.1 pr.2 = some c ∧ 0 < c) :=
  ⟨by decide, C8_write_iff_changed _ (by decide)⟩

/-! ### Claim C9 -/

/-- C9: `OrdVersion::parse` is not total: on the empty string, and on any
string starting with `-` (whose pre-dash part is therefore empty), the
`unwrap` on the first character panics — modelled by `none` — instead of
returning an error value. -/
theorem C9_parse_panics :
    OrdVersion.parse "" = none ∧
    ∀ s : String, s.toList.head? = some '-' → OrdVersion.parse s = none := by
  constructor
  · rfl
  · intro s h
    cases hl : s.toList with
    | nil => rw [hl] at h; cases h
    | cons c rest =>
      rw [hl] at h
      simp only [List.head?_cons, Option.some.injEq] at h
      subst h
      unfold OrdVersion.parse preDash splitOnceDash
      rw [hl]
      simp [breakDash]

/-- C9 witness: the empty string and "-beta" both panic. -/
theorem C9_witness :
    OrdVersion.parse "" = none ∧ OrdVersion.parse "-beta" = none :=
  ⟨C9_parse_panics.1, C9_parse_panics.2 "-beta" (by decide)⟩

/-! ### Claim C10 -/

/-- C10: the update operation's change detection compares version strings
with lexicographic string order (`strLtb`, embedded in `changedCount`), not
the parsed (major, minor, patch) order: for old "9.0.0" updated to "10.0.0"
the string comparison says not-greater even though the parsed order says
greater, so the dependency counts as unchanged, and when it is the only
change the run's count is 0 — the condition under which nothing is displayed
and no storage write occurs. -/
theorem C10_string_order_update :
    strLtb "9.0.0" "10.0.0" = false ∧
    OrdVersion.ltb ⟨9, 0, 0⟩ ⟨10, 0, 0⟩ = true ∧
    OrdVersion.parse "9.0.0" = some (Except.ok ⟨9, 0, 0⟩) ∧
    OrdVersion.parse "10.0.0" = some (Except.ok ⟨10, 0, 0⟩) ∧
    changedCount [⟨"x", "10.0.0", none⟩] ["9.0.0"] = some 0 ∧
    update_run [([⟨"x", "10.0.0", none⟩], ["9.0.0"])] = some (Except.ok 0) := by
  decide
